import Mathlib

/-!
Verification of the mask-derivation and sampling pipeline of
`simulated_training.py` (neural-network microarray segmentation).

The truth field of one simulated image is modelled as a function
`Int → Int → ℚ` together with a grid shape `h × w`; boolean masks are
`Int → Int → Bool` functions that are `false` outside the grid.  The
morphological operations (`binary_dilation`, `binary_closing` with the
full 3×3 structuring element and `border_value = 0`, as scipy performs
them) act pointwise over the 8-neighbourhood.  Coordinate extraction,
aggregation and the balanced sampler are modelled over lists; the
process-wide random source of the original program is made explicit as
oracles (`rand`, `order`) exactly as a seedable reimplementation would.
-/

/-- The six pixel categories of the pipeline. -/
inductive Category where
  | inside
  | outside
  | inside_damaged
  | outside_damaged
  | block_border
  | between
deriving DecidableEq, Repr

/-- The mapping from types of pixels to classifier labels (`LABEL_ENUM`). -/
def LABEL_ENUM : Category → ℕ
  | .inside => 1
  | .outside => 0
  | .inside_damaged => 1
  | .outside_damaged => 0
  | .block_border => 0
  | .between => 0

/-- The fixed enumeration of the six categories, in the order of the
source's dictionary literals. -/
def categories : List Category :=
  [.inside, .outside, .inside_damaged, .outside_damaged, .block_border, .between]

lemma mem_categories (c : Category) : c ∈ categories := by
  cases c <;> simp [categories]

/-- A pixel position lies inside the `h × w` grid. -/
def inBounds (h w : ℕ) (i j : Int) : Bool :=
  decide (0 ≤ i) && decide (i < (h : Int)) && decide (0 ≤ j) && decide (j < (w : Int))

/-- Offsets of the full 3×3 structuring element (`sp.ones((3, 3))`). -/
def offsets3 : List (Int × Int) :=
  [(-1, -1), (-1, 0), (-1, 1), (0, -1), (0, 0), (0, 1), (1, -1), (1, 0), (1, 1)]

/-- One iteration of binary dilation by the full 3×3 structuring element,
with out-of-grid pixels read as `false` (scipy's `border_value = 0`). -/
def dilStep (h w : ℕ) (m : Int → Int → Bool) : Int → Int → Bool :=
  fun i j =>
    inBounds h w i j &&
      offsets3.any (fun d => inBounds h w (i + d.1) (j + d.2) && m (i + d.1) (j + d.2))

/-- One iteration of binary erosion by the full 3×3 structuring element,
with out-of-grid pixels read as `false` (scipy's `border_value = 0`). -/
def erodeStep (h w : ℕ) (m : Int → Int → Bool) : Int → Int → Bool :=
  fun i j =>
    inBounds h w i j &&
      offsets3.all (fun d => inBounds h w (i + d.1) (j + d.2) && m (i + d.1) (j + d.2))

/-- `sp.ndimage.binary_dilation(m, structure=sp.ones((3,3)), iterations=k)`. -/
def binary_dilation (h w : ℕ) (m : Int → Int → Bool) (iters : ℕ) : Int → Int → Bool :=
  (dilStep h w)^[iters] m

/-- `sp.ndimage.binary_closing(m, structure=sp.ones((3,3)))`: one dilation
followed by one erosion. -/
def binary_closing (h w : ℕ) (m : Int → Int → Bool) : Int → Int → Bool :=
  erodeStep h w (dilStep h w m)

/-- The inline mask `0.75 < truth` used throughout the source. -/
def inside_mask (h w : ℕ) (truth : Int → Int → ℚ) : Int → Int → Bool :=
  fun i j => inBounds h w i j && decide ((3 : ℚ)/4 < truth i j)

/-- The inline mask `truth < 0.25` used throughout the source. -/
def outside_mask (h w : ℕ) (truth : Int → Int → ℚ) : Int → Int → Bool :=
  fun i j => inBounds h w i j && decide (truth i j < (1 : ℚ)/4)

/-- `make_damaged_spot_mask`: close `0.75 < truth < 1` with the 3×3
structuring element, then intersect with `0.75 < truth`. -/
def make_damaged_spot_mask (h w : ℕ) (truth : Int → Int → ℚ) : Int → Int → Bool :=
  let damaged_pixel : Int → Int → Bool :=
    fun i j => inBounds h w i j && decide ((3 : ℚ)/4 < truth i j) && decide (truth i j < 1)
  let damaged_area := binary_closing h w damaged_pixel
  fun i j => damaged_area i j && decide ((3 : ℚ)/4 < truth i j)

/-- `make_outside_near_damaged_spot_mask`: dilate the damaged-spot mask 5
times and intersect with `truth < 0.25`. -/
def make_outside_near_damaged_spot_mask (h w : ℕ) (truth : Int → Int → ℚ) :
    Int → Int → Bool :=
  let near_damaged_spot := binary_dilation h w (make_damaged_spot_mask h w truth) 5
  fun i j => near_damaged_spot i j && decide (truth i j < (1 : ℚ)/4)

/-- `make_block_border_mask`: dilate `0.75 < truth` 15 times, minus its
3-iteration dilation. -/
def make_block_border_mask (h w : ℕ) (truth : Int → Int → ℚ) : Int → Int → Bool :=
  let very_near_block := binary_dilation h w (inside_mask h w truth) 3
  let near_block := binary_dilation h w (inside_mask h w truth) 15
  fun i j => near_block i j && !(very_near_block i j)

/-- `make_between_spot_mask`: dilate `0.75 < truth` 4 times and intersect
with `truth < 0.25`. -/
def make_between_spot_mask (h w : ℕ) (truth : Int → Int → ℚ) : Int → Int → Bool :=
  let near_spot := binary_dilation h w (inside_mask h w truth) 4
  fun i j => near_spot i j && decide (truth i j < (1 : ℚ)/4)

/-- One image's ground-truth plane: an `height × width` grid of real
(rational) values. -/
structure TruthField where
  height : ℕ
  width : ℕ
  val : Int → Int → ℚ

/-- The mask of each category, as `get_centers_single_image` builds them. -/
def category_mask (truth : TruthField) : Category → Int → Int → Bool
  | .inside => inside_mask truth.height truth.width truth.val
  | .outside => outside_mask truth.height truth.width truth.val
  | .inside_damaged => make_damaged_spot_mask truth.height truth.width truth.val
  | .outside_damaged => make_outside_near_damaged_spot_mask truth.height truth.width truth.val
  | .block_border => make_block_border_mask truth.height truth.width truth.val
  | .between => make_between_spot_mask truth.height truth.width truth.val

/-- The mask set by `away_from_border[border:-border, border:-border] = True`:
rows and columns at least `border` away from every edge.  With `border = 0`
the Python slice `0:-0` is empty, so the mask is everywhere false. -/
def away_from_border (h w border : ℕ) : Int → Int → Bool :=
  fun i j =>
    decide (1 ≤ border) && decide ((border : Int) ≤ i) && decide (i + border < (h : Int)) &&
      decide ((border : Int) ≤ j) && decide (j + border < (w : Int))

/-- A coordinate column: row index, column index, source-image index. -/
abbrev Coord := ℕ × ℕ × ℕ

/-- The columns of `indices[:, mask]`: the coordinates of all true pixels of
`mask`, in row-major order, each tagged with the image number. -/
def coordsOf (h w : ℕ) (m : Int → Int → Bool) (im_no : ℕ) : List Coord :=
  (List.range h).flatMap fun i =>
    (List.range w).filterMap fun j =>
      if m (Int.ofNat i) (Int.ofNat j) then some (i, j, im_no) else none

/-- `get_centers_single_image`: for each category, the coordinates of the
pixels satisfying that category's mask and the away-from-border mask. -/
def get_centers_single_image (truth : TruthField) (im_no : ℕ) (border : ℕ) :
    Category → List Coord :=
  fun c =>
    coordsOf truth.height truth.width
      (fun i j =>
        category_mask truth c i j &&
          away_from_border truth.height truth.width border i j)
      im_no

/-- `get_centers`: per-image coordinate extraction followed by per-category
concatenation across images.  `centers[0]` in the source raises on an empty
input sequence, modelled by `none`. -/
def get_centers (truths : List TruthField) (border : ℕ) :
    Option (Category → List Coord) :=
  match truths with
  | [] => none
  | _ :: _ =>
    some fun name =>
      (truths.enum.map fun it => get_centers_single_image it.2 it.1 border name).flatten

/-- The fixed per-category quotas of `make_labelled_sets` (`counts`). -/
def COUNTS : Category → ℕ
  | .inside => 200000
  | .outside => 100000
  | .inside_damaged => 200000
  | .outside_damaged => 100000
  | .block_border => 100000
  | .between => 100000

/-- `center_sets[name] = centers[name][:, choices[name]]`: draw `counts c`
columns with replacement from category `c`'s pool; the random draw is the
explicit oracle `rand`, reduced modulo the pool width. -/
def center_sets (counts : Category → ℕ) (centers : Category → List Coord)
    (rand : Category → ℕ → ℕ) (c : Category) : List Coord :=
  (List.range (counts c)).map fun k =>
    (centers c).getD (rand c k % (centers c).length) (0, 0, 0)

/-- `label_sets[name] = sp.repeat(LABEL_ENUM[name], counts[name])`. -/
def label_sets (counts : Category → ℕ) (c : Category) : List ℕ :=
  List.replicate (counts c) (LABEL_ENUM c)

/-- `center_set`: concatenation of the per-category samples. -/
def center_set (counts : Category → ℕ) (centers : Category → List Coord)
    (rand : Category → ℕ → ℕ) : List Coord :=
  (categories.map (center_sets counts centers rand)).flatten

/-- `label_set`: concatenation of the per-category label arrays. -/
def label_set (counts : Category → ℕ) : List ℕ :=
  (categories.map (label_sets counts)).flatten

/-- `make_labelled_sets`: sample each category's pool with replacement,
label, concatenate, apply one permutation `order` to both arrays, and split
at `int((1 - test_split) * total)`.  `sp.random.choice` raises on an empty
pool, modelled by the `Except.error` branch. -/
def make_labelled_sets (counts : Category → ℕ) (centers : Category → List Coord)
    (rand : Category → ℕ → ℕ) (order : List ℕ) (test_split : ℚ) :
    Except String (List Coord × List ℕ × List Coord × List ℕ) :=
  if categories.all (fun c => !(centers c).isEmpty) then
    let ordered_centers :=
      order.map fun i => (center_set counts centers rand).getD i (0, 0, 0)
    let ordered_labels := order.map fun i => (label_set counts).getD i 0
    let n_training :=
      (⌊(1 - test_split) * ((center_set counts centers rand).length : ℚ)⌋).toNat
    .ok (ordered_centers.take n_training, ordered_labels.take n_training,
         ordered_centers.drop n_training, ordered_labels.drop n_training)
  else
    .error "a must be non-empty"

/-! ### Helper lemmas: coordinate extraction -/

lemma mem_coordsOf {h w : ℕ} {m : Int → Int → Bool} {im_no : ℕ} {p : Coord} :
    p ∈ coordsOf h w m im_no ↔
      p.1 < h ∧ p.2.1 < w ∧ m (Int.ofNat p.1) (Int.ofNat p.2.1) = true ∧ p.2.2 = im_no := by
  obtain ⟨i, j, n⟩ := p
  simp only [coordsOf, List.mem_flatMap, List.mem_filterMap, List.mem_range]
  constructor
  · rintro ⟨a, ha, b, hb, hab⟩
    by_cases hm : m (Int.ofNat a) (Int.ofNat b) = true
    · rw [if_pos hm] at hab
      obtain ⟨rfl, rfl, rfl⟩ := Prod.mk.injEq .. ▸ (Option.some.inj hab)
      exact ⟨ha, hb, hm, rfl⟩
    · rw [if_neg hm] at hab
      exact absurd hab (by simp)
  · rintro ⟨hi, hj, hm, rfl⟩
    exact ⟨i, hi, j, hj, by rw [if_pos hm]⟩

lemma coordsOf_eq_nil {h w : ℕ} {m : Int → Int → Bool} {im_no : ℕ}
    (hm : ∀ i j, m i j = false) : coordsOf h w m im_no = [] := by
  rw [List.eq_nil_iff_forall_not_mem]
  intro p hp
  rw [mem_coordsOf] at hp
  exact absurd hp.2.2.1 (by simp [hm])

lemma away_from_border_zero (h w : ℕ) (i j : Int) :
    away_from_border h w 0 i j = false := by
  simp [away_from_border]

/-! ### Helper lemmas: morphology -/

lemma band_left {a b : Bool} (h : (a && b) = true) : a = true := by
  rcases a <;> simp_all

lemma band_right {a b : Bool} (h : (a && b) = true) : b = true := by
  rcases a <;> simp_all

lemma band_intro {a b : Bool} (ha : a = true) (hb : b = true) : (a && b) = true := by
  subst ha hb; rfl

lemma dilStep_inBounds {h w : ℕ} {m : Int → Int → Bool} {i j : Int}
    (hd : dilStep h w m i j = true) : inBounds h w i j = true :=
  band_left hd

lemma dilStep_self {h w : ℕ} {m : Int → Int → Bool} {i j : Int}
    (hb : inBounds h w i j = true) (hm : m i j = true) : dilStep h w m i j = true := by
  unfold dilStep
  refine band_intro hb (List.any_eq_true.2 ⟨(0, 0), by decide, ?_⟩)
  simpa using ⟨hb, hm⟩

lemma dilStep_neighbor {h w : ℕ} {m : Int → Int → Bool} (i j a b : Int) (d : Int × Int)
    (hd : d ∈ offsets3) (hab : a = i + d.1 ∧ b = j + d.2)
    (hb : inBounds h w i j = true) (hb' : inBounds h w a b = true)
    (hm : m a b = true) : dilStep h w m i j = true := by
  obtain ⟨rfl, rfl⟩ := hab
  unfold dilStep
  exact band_intro hb (List.any_eq_true.2 ⟨d, hd, by simp [hb', hm]⟩)

lemma iterate_guard {h w : ℕ} {m : Int → Int → Bool}
    (hg : ∀ i j, m i j = true → inBounds h w i j = true) :
    ∀ (k : ℕ) (i j : Int), (dilStep h w)^[k] m i j = true → inBounds h w i j = true
  | 0, i, j, hm => hg i j hm
  | k + 1, i, j, hm => by
    rw [Function.iterate_succ_apply'] at hm
    exact dilStep_inBounds hm

lemma le_iterate {h w : ℕ} {m : Int → Int → Bool}
    (hg : ∀ i j, m i j = true → inBounds h w i j = true) :
    ∀ (k : ℕ) (i j : Int), m i j = true → (dilStep h w)^[k] m i j = true
  | 0, _, _, hm => hm
  | k + 1, i, j, hm => by
    rw [Function.iterate_succ_apply']
    exact dilStep_self (hg i j hm) (le_iterate hg k i j hm)

lemma iterate_mono {h w : ℕ} {m : Int → Int → Bool}
    (hg : ∀ i j, m i j = true → inBounds h w i j = true) {k k' : ℕ} (hk : k ≤ k')
    (i j : Int) (hm : (dilStep h w)^[k] m i j = true) :
    (dilStep h w)^[k'] m i j = true := by
  obtain ⟨d, rfl⟩ : ∃ d, k' = d + k := ⟨k' - k, by omega⟩
  rw [Function.iterate_add_apply]
  exact le_iterate (fun i j => iterate_guard hg k i j) d i j hm

lemma iterate_sound {h w : ℕ} {m : Int → Int → Bool} :
    ∀ (k : ℕ) (i j : Int), (dilStep h w)^[k] m i j = true →
      ∃ a b : Int, m a b = true ∧ (a - i).natAbs ≤ k ∧ (b - j).natAbs ≤ k
  | 0, i, j, hm => ⟨i, j, hm, by simp, by simp⟩
  | k + 1, i, j, hm => by
    rw [Function.iterate_succ_apply'] at hm
    unfold dilStep at hm
    have hany := band_right hm
    obtain ⟨d, hd, hdm⟩ := List.any_eq_true.1 hany
    have hmem := band_right hdm
    obtain ⟨a, b, hab, ha, hb⟩ := iterate_sound k (i + d.1) (j + d.2) hmem
    have hd1 : d.1.natAbs ≤ 1 ∧ d.2.natAbs ≤ 1 := by fin_cases hd <;> decide
    exact ⟨a, b, hab, by omega, by omega⟩

lemma inside_mask_guard {h w : ℕ} {truth : Int → Int → ℚ} {i j : Int}
    (hm : inside_mask h w truth i j = true) : inBounds h w i j = true :=
  band_left hm

/-! ### Helper lemmas: balanced sampler -/

lemma length_center_sets (counts : Category → ℕ) (centers : Category → List Coord)
    (rand : Category → ℕ → ℕ) (c : Category) :
    (center_sets counts centers rand c).length = counts c := by
  simp [center_sets]

lemma length_label_sets (counts : Category → ℕ) (c : Category) :
    (label_sets counts c).length = counts c := by
  simp [label_sets]

lemma length_center_set (counts : Category → ℕ) (centers : Category → List Coord)
    (rand : Category → ℕ → ℕ) :
    (center_set counts centers rand).length = (categories.map counts).sum := by
  rw [center_set, List.length_flatten, List.map_map]
  exact congrArg List.sum
    (List.map_congr_left fun c _ => length_center_sets counts centers rand c)

lemma length_label_set (counts : Category → ℕ) :
    (label_set counts).length = (categories.map counts).sum := by
  rw [label_set, List.length_flatten, List.map_map]
  exact congrArg List.sum (List.map_congr_left fun c _ => length_label_sets counts c)

lemma mem_center_sets {counts : Category → ℕ} {centers : Category → List Coord}
    {rand : Category → ℕ → ℕ} {c : Category} (hne : centers c ≠ [])
    {p : Coord} (hp : p ∈ center_sets counts centers rand c) : p ∈ centers c := by
  simp only [center_sets, List.mem_map, List.mem_range] at hp
  obtain ⟨k, -, rfl⟩ := hp
  have hlen : 0 < (centers c).length := List.length_pos.2 hne
  have hidx : rand c k % (centers c).length < (centers c).length := Nat.mod_lt _ hlen
  rw [List.getD_eq_getElem _ _ hidx]
  exact List.getElem_mem hidx

lemma make_labelled_sets_eq_ok (counts : Category → ℕ) (centers : Category → List Coord)
    (rand : Category → ℕ → ℕ) (order : List ℕ) (s : ℚ)
    (hne : ∀ c : Category, centers c ≠ []) :
    make_labelled_sets counts centers rand order s =
      .ok ((order.map fun i => (center_set counts centers rand).getD i (0, 0, 0)).take
             ((⌊(1 - s) * ((center_set counts centers rand).length : ℚ)⌋).toNat),
           (order.map fun i => (label_set counts).getD i 0).take
             ((⌊(1 - s) * ((center_set counts centers rand).length : ℚ)⌋).toNat),
           (order.map fun i => (center_set counts centers rand).getD i (0, 0, 0)).drop
             ((⌊(1 - s) * ((center_set counts centers rand).length : ℚ)⌋).toNat),
           (order.map fun i => (label_set counts).getD i 0).drop
             ((⌊(1 - s) * ((center_set counts centers rand).length : ℚ)⌋).toNat)) := by
  have hcond : categories.all (fun c => !(centers c).isEmpty) = true :=
    List.all_eq_true.2 fun c _ => by
      cases hcl : centers c with
      | nil => exact absurd hcl (hne c)
      | cons a l => rfl
  rw [make_labelled_sets, if_pos hcond]

lemma make_labelled_sets_eq_error (counts : Category → ℕ) (centers : Category → List Coord)
    (rand : Category → ℕ → ℕ) (order : List ℕ) (s : ℚ)
    (c : Category) (hc : centers c = []) :
    make_labelled_sets counts centers rand order s = .error "a must be non-empty" := by
  cases hall : categories.all (fun c => !(centers c).isEmpty) with
  | false => rw [make_labelled_sets, if_neg (by simp [hall])]
  | true =>
    have := List.all_eq_true.1 hall c (mem_categories c)
    simp [hc] at this

lemma zip_eq_map_range {α β : Type} (d₁ : α) (d₂ : β) :
    ∀ (l₁ : List α) (l₂ : List β), l₁.length = l₂.length →
      l₁.zip l₂ = (List.range l₁.length).map fun i => (l₁.getD i d₁, l₂.getD i d₂)
  | [], [], _ => rfl
  | [], _ :: _, h => by simp at h
  | _ :: _, [], h => by simp at h
  | a :: l₁, b :: l₂, h => by
    simp only [List.length_cons, List.range_succ_eq_map, List.map_cons, List.zip_cons_cons,
      List.getD_cons_zero, List.map_map]
    rw [zip_eq_map_range d₁ d₂ l₁ l₂ (by simpa using h)]
    simp [Function.comp_def]

lemma flatten_zip {α β γ : Type} (f : γ → List α) (g : γ → List β) :
    ∀ (xs : List γ), (∀ x ∈ xs, (f x).length = (g x).length) →
      ((xs.map f).flatten).zip ((xs.map g).flatten) =
        (xs.map fun x => (f x).zip (g x)).flatten
  | [], _ => rfl
  | x :: xs, hx => by
    simp only [List.map_cons, List.flatten_cons]
    rw [List.zip_append (hx x (by simp)), flatten_zip f g xs fun y hy => hx y (by simp [hy])]

lemma zip_replicate_self {α β : Type} (a : β) :
    ∀ l : List α, l.zip (List.replicate l.length a) = l.map fun x => (x, a)
  | [] => rfl
  | x :: l => by
    simp only [List.length_cons, List.replicate_succ, List.zip_cons_cons, List.map_cons]
    rw [zip_replicate_self a l]

/-! ### Claim C1 -/

/-- A truth field with two damaged pixels (value 9/10) flanking a fully
intact pixel (value 1) on a 5×5 grid; the closing fills the gap. -/
def damagedT : Int → Int → ℚ := fun i j =>
  if i = 2 ∧ j = 2 then 1 else if i = 2 ∧ (j = 1 ∨ j = 3) then 9/10 else 0

/-- C1 counterexample: `make_damaged_spot_mask` can set a pixel whose truth
value is exactly 1, because the source re-intersects the closed area with
`0.75 < truth` only, not with `0.75 < truth < 1`: at pixel (2,2) of
`damagedT` the mask is true although the truth value is 1. -/
theorem make_damaged_spot_mask_value_one_cex :
    make_damaged_spot_mask 5 5 damagedT 2 2 = true ∧ damagedT 2 2 = 1 := by
  constructor
  · simp only [make_damaged_spot_mask, binary_closing, erodeStep, dilStep, inBounds, offsets3,
      List.all_cons, List.all_nil, List.any_cons, List.any_nil, damagedT]
    norm_num
  · norm_num [damagedT]

/-- C1 (amended): every pixel set to true in `make_damaged_spot_mask truth`
satisfies `0.75 < truth` at that pixel — pixels with `truth ≤ 0.75` are
never included (but pixels with `truth = 1` can be, when the closing fills
them in). -/
theorem make_damaged_spot_mask_subset_lower (h w : ℕ) (truth : Int → Int → ℚ)
    (i j : Int) (hm : make_damaged_spot_mask h w truth i j = true) :
    (3 : ℚ)/4 < truth i j := by
  have := band_right hm
  exact of_decide_eq_true this

/-- C1 witness: at pixel (2,1) of `damagedT` the damaged-spot mask is true,
and the amended claim yields `0.75 < 9/10` there. -/
theorem make_damaged_spot_mask_subset_lower_witness :
    (3 : ℚ)/4 < damagedT 2 1 :=
  make_damaged_spot_mask_subset_lower 5 5 damagedT 2 1 (by
    simp only [make_damaged_spot_mask, binary_closing, erodeStep, dilStep, inBounds, offsets3,
      List.all_cons, List.all_nil, List.any_cons, List.any_nil, damagedT]
    norm_num)

/-! ### Claim C2 -/

/-- C2: every coordinate returned by `get_centers_single_image`, for any
truth field, image index, border margin and category, lies at least
`border` away from every edge: `border ≤ row < height - border` and
`border ≤ col < width - border`. -/
theorem get_centers_single_image_border (truth : TruthField) (im_no border : ℕ)
    (c : Category) (p : Coord) (hp : p ∈ get_centers_single_image truth im_no border c) :
    border ≤ p.1 ∧ p.1 < truth.height - border ∧
      border ≤ p.2.1 ∧ p.2.1 < truth.width - border := by
  rw [get_centers_single_image, mem_coordsOf] at hp
  obtain ⟨hi, hj, hm, -⟩ := hp
  have haway := band_right hm
  simp only [away_from_border, Bool.and_eq_true, decide_eq_true_eq,
    Int.ofNat_eq_natCast] at haway
  obtain ⟨⟨⟨⟨h1, h2⟩, h3⟩, h4⟩, h5⟩ := haway
  omega

/-- C2 witness: on a 3×3 all-ones truth field with border 1 the center pixel
is returned for the `inside` category, and it satisfies the bounds. -/
theorem get_centers_single_image_border_witness :
    1 ≤ (1 : ℕ) ∧ (1 : ℕ) < 3 - 1 ∧ 1 ≤ (1 : ℕ) ∧ (1 : ℕ) < 3 - 1 :=
  get_centers_single_image_border ⟨3, 3, fun _ _ => 1⟩ 7 1 .inside (1, 1, 7) (by
    rw [get_centers_single_image, mem_coordsOf]
    refine ⟨by norm_num, by norm_num, ?_, rfl⟩
    simp only [category_mask, inside_mask, inBounds, away_from_border]
    norm_num)

/-! ### Claim C9 -/

/-- C9: with `border = 0` the Python slice `0:-0` selects nothing, so the
away-from-border region is empty and `get_centers_single_image` returns an
empty coordinate array for every category, whatever the truth field. -/
theorem get_centers_single_image_border_zero (truth : TruthField) (im_no : ℕ)
    (c : Category) : get_centers_single_image truth im_no 0 c = [] := by
  rw [get_centers_single_image]
  apply coordsOf_eq_nil
  intro i j
  rw [away_from_border_zero, Bool.and_false]

/-! ### Claim C8 -/

/-- C8: `make_block_border_mask truth` is exactly the 15-iteration 3×3
dilation of `0.75 < truth` minus its 3-iteration dilation, and every true
output pixel is outside the mask `0.75 < truth` itself (dilation only
grows a region, so the 3-iteration dilation contains the original mask). -/
theorem make_block_border_mask_spec (h w : ℕ) (truth : Int → Int → ℚ) (i j : Int) :
    (make_block_border_mask h w truth i j = true ↔
      binary_dilation h w (inside_mask h w truth) 15 i j = true ∧
      binary_dilation h w (inside_mask h w truth) 3 i j = false) ∧
    (make_block_border_mask h w truth i j = true → inside_mask h w truth i j = false) := by
  constructor
  · simp [make_block_border_mask, Bool.and_eq_true, Bool.not_eq_true']
  · intro hbb
    have h3 : binary_dilation h w (inside_mask h w truth) 3 i j = false := by
      have := band_right hbb
      simpa [Bool.not_eq_true'] using this
    by_contra hc
    rw [Bool.not_eq_false] at hc
    have : binary_dilation h w (inside_mask h w truth) 3 i j = true :=
      le_iterate (fun _ _ hm => inside_mask_guard hm) 3 i j hc
    rw [this] at h3
    exact absurd h3 (by simp)

/-- Single-spot truth field on an 11×11 grid: value 1 at (5,5), else 0. -/
def spotT : Int → Int → ℚ := fun i j => if i = 5 ∧ j = 5 then 1 else 0

lemma inside_mask_spotT {a b : Int} :
    inside_mask 11 11 spotT a b = true ↔ a = 5 ∧ b = 5 := by
  constructor
  · intro hm
    have hlt : (3 : ℚ)/4 < spotT a b := of_decide_eq_true (band_right hm)
    by_contra hab
    rw [spotT] at hlt
    rw [if_neg hab] at hlt
    norm_num at hlt
  · rintro ⟨rfl, rfl⟩
    simp only [inside_mask, inBounds, spotT]
    norm_num

lemma spotT_dil4 : binary_dilation 11 11 (inside_mask 11 11 spotT) 4 5 9 = true := by
  have h0 : inside_mask 11 11 spotT 5 5 = true := inside_mask_spotT.2 ⟨rfl, rfl⟩
  have h1 : (dilStep 11 11)^[1] (inside_mask 11 11 spotT) 5 6 = true := by
    rw [Function.iterate_one]
    exact dilStep_neighbor 5 6 5 5 (0, -1) (by decide) (by decide) (by decide) (by decide) h0
  have h2 : (dilStep 11 11)^[2] (inside_mask 11 11 spotT) 5 7 = true := by
    rw [Function.iterate_succ_apply']
    exact dilStep_neighbor 5 7 5 6 (0, -1) (by decide) (by decide) (by decide) (by decide) h1
  have h3 : (dilStep 11 11)^[3] (inside_mask 11 11 spotT) 5 8 = true := by
    rw [Function.iterate_succ_apply']
    exact dilStep_neighbor 5 8 5 7 (0, -1) (by decide) (by decide) (by decide) (by decide) h2
  rw [binary_dilation]
  rw [show (4 : ℕ) = 3 + 1 from rfl, Function.iterate_succ_apply']
  exact dilStep_neighbor 5 9 5 8 (0, -1) (by decide) (by decide) (by decide) (by decide) h3

lemma spotT_dil3_false : binary_dilation 11 11 (inside_mask 11 11 spotT) 3 5 9 = false := by
  by_contra hc
  rw [Bool.not_eq_false] at hc
  obtain ⟨a, b, hab, ha, hb⟩ := iterate_sound 3 5 9 hc
  rw [inside_mask_spotT] at hab
  obtain ⟨rfl, rfl⟩ := hab
  omega

lemma spotT_block_border : make_block_border_mask 11 11 spotT 5 9 = true := by
  have h15 : binary_dilation 11 11 (inside_mask 11 11 spotT) 15 5 9 = true :=
    iterate_mono (fun _ _ hm => inside_mask_guard hm) (by norm_num) 5 9 spotT_dil4
  have hd3 := spotT_dil3_false
  simp only [make_block_border_mask, binary_dilation] at h15 hd3 ⊢
  rw [h15, hd3]
  rfl

/-- C8 witness: the pixel (5,9), at Chebyshev distance 4 from the single
spot of `spotT`, is in the block-border annulus, and by the theorem it is
outside the spot mask `0.75 < truth`. -/
theorem make_block_border_mask_spec_witness :
    make_block_border_mask 11 11 spotT 5 9 = true ∧
      inside_mask 11 11 spotT 5 9 = false :=
  ⟨spotT_block_border, (make_block_border_mask_spec 11 11 spotT 5 9).2 spotT_block_border⟩

/-! ### Claim C7 -/

/-- C7: for every non-empty input sequence and every category, the pool
produced by `get_centers` is the concatenation of that category's per-image
coordinate arrays in input-image order, and its column count is the sum of
the per-image column counts. -/
theorem get_centers_concat (truths : List TruthField) (border : ℕ) (c : Category)
    (hne : truths ≠ []) :
    (get_centers truths border).map (fun m => m c) =
      some ((truths.enum.map fun it =>
        get_centers_single_image it.2 it.1 border c).flatten) ∧
    (get_centers truths border).map (fun m => (m c).length) =
      some ((truths.enum.map fun it =>
        (get_centers_single_image it.2 it.1 border c).length).sum) := by
  match truths with
  | [] => exact absurd rfl hne
  | t :: ts =>
    refine ⟨rfl, ?_⟩
    have hlen : (((t :: ts).enum.map fun it =>
          get_centers_single_image it.2 it.1 border c).flatten).length =
        ((t :: ts).enum.map fun it =>
          (get_centers_single_image it.2 it.1 border c).length).sum := by
      rw [List.length_flatten, List.map_map]
      rfl
    exact congrArg some hlen

/-- C7 witness: a single 1×1 truth field. -/
theorem get_centers_concat_witness :
    (get_centers [⟨1, 1, fun _ _ => 0⟩] 0).map (fun m => m Category.inside) =
      some (([(⟨1, 1, fun _ _ => 0⟩ : TruthField)].enum.map fun it =>
        get_centers_single_image it.2 it.1 0 Category.inside).flatten) ∧
    (get_centers [⟨1, 1, fun _ _ => 0⟩] 0).map (fun m => (m Category.inside).length) =
      some (([(⟨1, 1, fun _ _ => 0⟩ : TruthField)].enum.map fun it =>
        (get_centers_single_image it.2 it.1 0 Category.inside).length).sum) :=
  get_centers_concat [⟨1, 1, fun _ _ => 0⟩] 0 Category.inside (by simp)

/-! ### Claim C10 -/

/-- C10: `get_centers` fails on an empty input sequence (modelling the
`centers[0]` index error), and succeeds on every non-empty one, returning a
mapping defined on all six categories. -/
theorem get_centers_empty_input :
    (∀ border : ℕ, get_centers [] border = none) ∧
    (∀ (truths : List TruthField) (border : ℕ), truths ≠ [] →
      ∃ m : Category → List Coord, get_centers truths border = some m) := by
  refine ⟨fun _ => rfl, fun truths border hne => ?_⟩
  match truths with
  | [] => exact absurd rfl hne
  | t :: ts => exact ⟨_, rfl⟩

/-- C10 witness: a singleton input yields `some` mapping. -/
theorem get_centers_empty_input_witness :
    ∃ m : Category → List Coord, get_centers [⟨1, 1, fun _ _ => 0⟩] 0 = some m :=
  get_centers_empty_input.2 [⟨1, 1, fun _ _ => 0⟩] 0 (by simp)

/-! ### Claim C3 -/

/-- C3 (amended): when every pool is non-empty, `order` ranges over the full
sample count and `0 ≤ s ≤ 1`, `make_labelled_sets` returns train and test
sets with `len(train) + len(test) = Σ quotas`, `len(train) =
floor((1 - s) * Σ quotas)` and `len(test) = Σ quotas - floor((1 - s) * Σ
quotas)` (the ceiling of `s * Σ quotas`, not its floor), and the split is
the prefix/suffix partition of the single shuffled pool at that index. -/
theorem make_labelled_sets_split (counts : Category → ℕ) (centers : Category → List Coord)
    (rand : Category → ℕ → ℕ) (order : List ℕ) (s : ℚ)
    (tc ec : List Coord) (tl el : List ℕ)
    (hne : ∀ c : Category, centers c ≠ [])
    (hord : order.length = (categories.map counts).sum)
    (hs0 : 0 ≤ s)
    (hok : make_labelled_sets counts centers rand order s = .ok (tc, tl, ec, el)) :
    tl.length + el.length = (categories.map counts).sum ∧
    tl.length = (⌊(1 - s) * (((categories.map counts).sum : ℕ) : ℚ)⌋).toNat ∧
    el.length = (categories.map counts).sum -
      (⌊(1 - s) * (((categories.map counts).sum : ℕ) : ℚ)⌋).toNat ∧
    tc ++ ec = order.map (fun i => (center_set counts centers rand).getD i (0, 0, 0)) ∧
    tl ++ el = order.map (fun i => (label_set counts).getD i 0) := by
  rw [make_labelled_sets_eq_ok counts centers rand order s hne, length_center_set] at hok
  rw [Except.ok.injEq, Prod.mk.injEq, Prod.mk.injEq, Prod.mk.injEq] at hok
  obtain ⟨htc, htl, hec, hel⟩ := hok
  have hnN : (⌊(1 - s) * (((categories.map counts).sum : ℕ) : ℚ)⌋).toNat ≤
      (categories.map counts).sum := by
    rw [Int.toNat_le]
    calc ⌊(1 - s) * (((categories.map counts).sum : ℕ) : ℚ)⌋
        ≤ ⌊(((categories.map counts).sum : ℕ) : ℚ)⌋ := by
          apply Int.floor_le_floor
          have h01 : (1 - s) ≤ 1 := by linarith
          have hN0 : (0 : ℚ) ≤ (((categories.map counts).sum : ℕ) : ℚ) := by positivity
          nlinarith
      _ = ((categories.map counts).sum : ℤ) := Int.floor_natCast _
  subst htc htl hec hel
  refine ⟨?_, ?_, ?_, List.take_append_drop .., List.take_append_drop ..⟩
  · rw [List.length_take, List.length_drop, List.length_map, hord]
    omega
  · rw [List.length_take, List.length_map, hord]
    omega
  · rw [List.length_drop, List.length_map, hord]

/-- Quotas for the C3 counterexample: 10 samples of `inside`, none of the
rest; the total is 10. -/
def tenCounts : Category → ℕ
  | .inside => 10
  | _ => 0

/-- Pools for the C3 counterexample: every category holds one coordinate. -/
def oneCenters : Category → List Coord := fun _ => [(0, 0, 0)]

/-- C3 counterexample: with total 10 and `test_split = 1/4` the test set has
`10 - floor(3/4 * 10) = 3` elements, but `floor(1/4 * 10) = 2`: the claimed
`len(test) = floor(s * total)` fails. -/
theorem make_labelled_sets_test_len_cex :
    (make_labelled_sets tenCounts oneCenters (fun _ _ => 0) (List.range 10) (1/4)).map
        (fun r => r.2.2.2.length) = .ok 3 ∧
    (⌊(1/4 : ℚ) * (((categories.map tenCounts).sum : ℕ) : ℚ)⌋).toNat = 2 ∧
    (3 : ℕ) ≠ 2 := by
  refine ⟨?_, ?_, by decide⟩
  · rw [make_labelled_sets_eq_ok tenCounts oneCenters (fun _ _ => 0) (List.range 10) (1/4)
      (fun c => by cases c <;> simp [oneCenters])]
    have hlen : (center_set tenCounts oneCenters (fun _ _ => 0)).length = 10 := by
      rw [length_center_set]; decide
    rw [hlen]
    have hn : (⌊(1 - (1/4 : ℚ)) * ((10 : ℕ) : ℚ)⌋).toNat = 7 := by
      norm_num
      decide
    rw [hn]
    simp [Except.map]
  · have hsum : (categories.map tenCounts).sum = 10 := by decide
    rw [hsum]
    norm_num
    decide

lemma make_labelled_sets_unit_ok :
    make_labelled_sets (fun _ => 1) oneCenters (fun _ _ => 0) (List.range 6) 1 =
      .ok ([], [], List.replicate 6 (0, 0, 0), [1, 0, 1, 0, 0, 0]) := by
  rw [make_labelled_sets_eq_ok (fun _ => 1) oneCenters (fun _ _ => 0) (List.range 6) 1
    (fun c => by cases c <;> simp [oneCenters])]
  have hl : (center_set (fun _ => 1) oneCenters (fun _ _ => 0)).length = 6 := by decide
  rw [hl]
  have hn : (⌊(1 - (1 : ℚ)) * ((6 : ℕ) : ℚ)⌋).toNat = 0 := by
    norm_num
  rw [hn]
  rfl

/-- C3 witness: quotas all 1 (total 6), singleton pools, identity shuffle,
`test_split = 1`: the training set is empty and the test set is the whole
shuffled pool of 6 samples. -/
theorem make_labelled_sets_split_witness :
    ([] : List ℕ).length + [1, 0, 1, 0, 0, 0].length =
        (categories.map (fun _ : Category => 1)).sum ∧
    ([] : List ℕ).length =
        (⌊(1 - (1 : ℚ)) * (((categories.map (fun _ : Category => 1)).sum : ℕ) : ℚ)⌋).toNat ∧
    [1, 0, 1, 0, 0, 0].length = (categories.map (fun _ : Category => 1)).sum -
        (⌊(1 - (1 : ℚ)) * (((categories.map (fun _ : Category => 1)).sum : ℕ) : ℚ)⌋).toNat ∧
    ([] : List Coord) ++ List.replicate 6 (0, 0, 0) =
      (List.range 6).map
        (fun i => (center_set (fun _ => 1) oneCenters (fun _ _ => 0)).getD i (0, 0, 0)) ∧
    ([] : List ℕ) ++ [1, 0, 1, 0, 0, 0] =
      (List.range 6).map (fun i => (label_set (fun _ => 1)).getD i 0) :=
  make_labelled_sets_split (fun _ => 1) oneCenters (fun _ _ => 0) (List.range 6) 1
    [] (List.replicate 6 (0, 0, 0)) [] [1, 0, 1, 0, 0, 0]
    (fun c => by cases c <;> simp [oneCenters]) (by decide) (by norm_num)
    make_labelled_sets_unit_ok

/-! ### Claim C4 -/

/-- C4: the single permutation `order` is applied identically to the
coordinate and label arrays: the shuffled pair at position `k` is exactly
the pre-shuffle pair at position `order[k]`, and the multiset of
coordinate/label pairs is preserved by the shuffle. -/
theorem make_labelled_sets_shuffle_pairing (counts : Category → ℕ)
    (centers : Category → List Coord) (rand : Category → ℕ → ℕ)
    (order : List ℕ) (s : ℚ) (tc ec : List Coord) (tl el : List ℕ)
    (hne : ∀ c : Category, centers c ≠ [])
    (hperm : order.Perm (List.range (categories.map counts).sum))
    (hok : make_labelled_sets counts centers rand order s = .ok (tc, tl, ec, el)) :
    (∀ k, k < order.length →
      ((tc ++ ec).getD k (0, 0, 0), (tl ++ el).getD k 0) =
        ((center_set counts centers rand).getD (order.getD k 0) (0, 0, 0),
         (label_set counts).getD (order.getD k 0) 0)) ∧
    ((tc ++ ec).zip (tl ++ el)).Perm
      ((center_set counts centers rand).zip (label_set counts)) := by
  rw [make_labelled_sets_eq_ok counts centers rand order s hne] at hok
  rw [Except.ok.injEq, Prod.mk.injEq, Prod.mk.injEq, Prod.mk.injEq] at hok
  obtain ⟨htc, htl, hec, hel⟩ := hok
  subst htc htl hec hel
  rw [List.take_append_drop, List.take_append_drop]
  constructor
  · intro k hk
    have hk1 : k < (order.map
        (fun i => (center_set counts centers rand).getD i (0, 0, 0))).length := by
      simpa using hk
    have hk2 : k < (order.map (fun i => (label_set counts).getD i 0)).length := by
      simpa using hk
    rw [List.getD_eq_getElem _ _ hk1, List.getD_eq_getElem _ _ hk2, List.getElem_map,
      List.getElem_map, List.getD_eq_getElem _ _ hk]
  · have hcl := length_center_set counts centers rand
    have hll := length_label_set counts
    rw [List.zip_map']
    have hrhs : (center_set counts centers rand).zip (label_set counts) =
        (List.range (categories.map counts).sum).map
          (fun i => ((center_set counts centers rand).getD i (0, 0, 0),
                     (label_set counts).getD i 0)) := by
      rw [zip_eq_map_range (0, 0, 0) 0 _ _ (by rw [hcl, hll]), hcl]
    rw [hrhs]
    exact hperm.map _

/-- Quotas for the C4 witness: one `inside` and one `outside` sample. -/
def pairCounts : Category → ℕ
  | .inside => 1
  | .outside => 1
  | _ => 0

/-- Pools for the C4 witness. -/
def pairCenters : Category → List Coord
  | .inside => [(0, 0, 0)]
  | .outside => [(1, 1, 0)]
  | _ => [(9, 9, 9)]

lemma make_labelled_sets_pair_ok :
    make_labelled_sets pairCounts pairCenters (fun _ _ => 0) [1, 0] 0 =
      .ok ([(1, 1, 0), (0, 0, 0)], [0, 1], [], []) := by
  rw [make_labelled_sets_eq_ok pairCounts pairCenters (fun _ _ => 0) [1, 0] 0
    (fun c => by cases c <;> simp [pairCenters])]
  have hl : (center_set pairCounts pairCenters (fun _ _ => 0)).length = 2 := by decide
  rw [hl]
  have hn : (⌊(1 - (0 : ℚ)) * ((2 : ℕ) : ℚ)⌋).toNat = 2 := by
    norm_num
    decide
  rw [hn]
  rfl

/-- C4 witness: pools of one `inside` and one `outside` coordinate, shuffle
`[1, 0]`: position 0 of the shuffled set carries pre-shuffle pair 1, and
the pair multiset is preserved. -/
theorem make_labelled_sets_shuffle_pairing_witness :
    ((([(1, 1, 0), (0, 0, 0)] : List Coord) ++ []).getD 0 (0, 0, 0),
        (([0, 1] : List ℕ) ++ []).getD 0 0) =
      ((center_set pairCounts pairCenters (fun _ _ => 0)).getD ([1, 0].getD 0 0) (0, 0, 0),
       (label_set pairCounts).getD ([1, 0].getD 0 0) 0) ∧
    ((([(1, 1, 0), (0, 0, 0)] : List Coord) ++ []).zip (([0, 1] : List ℕ) ++ [])).Perm
      ((center_set pairCounts pairCenters (fun _ _ => 0)).zip (label_set pairCounts)) :=
  ⟨(make_labelled_sets_shuffle_pairing pairCounts pairCenters (fun _ _ => 0) [1, 0] 0
      [(1, 1, 0), (0, 0, 0)] [] [0, 1] []
      (fun c => by cases c <;> simp [pairCenters]) (by decide)
      make_labelled_sets_pair_ok).1 0 (by decide),
   (make_labelled_sets_shuffle_pairing pairCounts pairCenters (fun _ _ => 0) [1, 0] 0
      [(1, 1, 0), (0, 0, 0)] [] [0, 1] []
      (fun c => by cases c <;> simp [pairCenters]) (by decide)
      make_labelled_sets_pair_ok).2⟩

/-! ### Claim C5 -/

/-- C5: labels are assigned per the fixed category→label map (`inside`→1,
`outside`→0, `inside_damaged`→1, `outside_damaged`→0, `block_border`→0,
`between`→0); every label in the concatenated label array is 0 or 1; the
pre-shuffle pairs are exactly the per-category samples paired with their
category's label; and every drawn sample of a non-empty pool is a column of
that pool. -/
theorem make_labelled_sets_labels (counts : Category → ℕ)
    (centers : Category → List Coord) (rand : Category → ℕ → ℕ) :
    (LABEL_ENUM .inside = 1 ∧ LABEL_ENUM .outside = 0 ∧ LABEL_ENUM .inside_damaged = 1 ∧
     LABEL_ENUM .outside_damaged = 0 ∧ LABEL_ENUM .block_border = 0 ∧
     LABEL_ENUM .between = 0) ∧
    (∀ l ∈ label_set counts, l = 0 ∨ l = 1) ∧
    ((center_set counts centers rand).zip (label_set counts) =
      (categories.map fun c =>
        (center_sets counts centers rand c).map fun p => (p, LABEL_ENUM c)).flatten) ∧
    (∀ c : Category, centers c ≠ [] →
      ∀ p ∈ center_sets counts centers rand c, p ∈ centers c) := by
  refine ⟨⟨rfl, rfl, rfl, rfl, rfl, rfl⟩, ?_, ?_, ?_⟩
  · intro l hl
    simp only [label_set, List.mem_flatten, List.mem_map] at hl
    obtain ⟨ls, ⟨c, hc, rfl⟩, hl⟩ := hl
    have hrep := List.eq_of_mem_replicate (by simpa [label_sets] using hl)
    subst hrep
    cases c <;> simp [LABEL_ENUM]
  · rw [center_set, label_set, flatten_zip _ _ categories
      (fun c _ => by rw [length_center_sets, length_label_sets])]
    apply congrArg List.flatten
    apply List.map_congr_left
    intro c _
    rw [label_sets, ← length_center_sets counts centers rand c]
    exact zip_replicate_self _ _
  · intro c hc p hp
    exact mem_center_sets hc hp

/-- C5 witness: with quotas all 1 and singleton pools, the `inside` label is
1, the label 1 occurring in the label array is 0-or-1, and the drawn
`inside` sample is a column of the `inside` pool. -/
theorem make_labelled_sets_labels_witness :
    LABEL_ENUM Category.inside = 1 ∧
    ((1 : ℕ) = 0 ∨ (1 : ℕ) = 1) ∧
    ((0, 0, 0) : Coord) ∈ oneCenters Category.inside :=
  ⟨(make_labelled_sets_labels (fun _ => 1) oneCenters (fun _ _ => 0)).1.1,
   (make_labelled_sets_labels (fun _ => 1) oneCenters (fun _ _ => 0)).2.1 1 (by decide),
   (make_labelled_sets_labels (fun _ => 1) oneCenters (fun _ _ => 0)).2.2.2
     Category.inside (by simp [oneCenters]) (0, 0, 0) (by decide)⟩

/-! ### Claim C6 -/

/-- C6: with the source's fixed (all positive) quotas, `make_labelled_sets`
fails if and only if some category pool with a positive quota has zero
columns; and for every non-empty pool, sampling with replacement succeeds
for any quota — even one exceeding the pool width — producing exactly
`quota` samples, each a column of the original pool. -/
lemma isOk_ok {ε α : Type} (x : α) : (Except.ok x : Except ε α).isOk = true := rfl

lemma isOk_error {ε α : Type} (e : ε) : (Except.error e : Except ε α).isOk = false := rfl

theorem make_labelled_sets_error_iff (centers : Category → List Coord)
    (rand : Category → ℕ → ℕ) (order : List ℕ) (s : ℚ) :
    ((make_labelled_sets COUNTS centers rand order s).isOk = false ↔
      ∃ c : Category, 0 < COUNTS c ∧ centers c = []) ∧
    (∀ (counts : Category → ℕ) (c : Category), centers c ≠ [] →
      (center_sets counts centers rand c).length = counts c ∧
      ∀ p ∈ center_sets counts centers rand c, p ∈ centers c) := by
  constructor
  · by_cases hall : ∀ c : Category, centers c ≠ []
    · rw [make_labelled_sets_eq_ok COUNTS centers rand order s hall, isOk_ok]
      constructor
      · intro h
        exact absurd h (by decide)
      · rintro ⟨c, -, hc⟩
        exact absurd hc (hall c)
    · push_neg at hall
      obtain ⟨c, hc⟩ := hall
      rw [make_labelled_sets_eq_error COUNTS centers rand order s c hc, isOk_error]
      refine ⟨fun _ => ⟨c, ?_, hc⟩, fun _ => rfl⟩
      cases c <;> decide
  · intro counts c hc
    exact ⟨length_center_sets counts centers rand c, fun p hp => mem_center_sets hc hp⟩

/-- Pools of width 3 for the C6 witness. -/
def threeCenters : Category → List Coord := fun _ => [(0, 0, 0), (0, 1, 0), (0, 2, 0)]

/-- C6 witness: quota 10 with replacement from a pool of width 3 succeeds:
exactly 10 samples, and the sampled column (0,1,0) is one of the 3 pool
columns. -/
theorem make_labelled_sets_error_iff_witness :
    (center_sets (fun _ => 10) threeCenters (fun _ k => k) Category.inside).length = 10 ∧
    ((0, 1, 0) : Coord) ∈ threeCenters Category.inside :=
  ⟨((make_labelled_sets_error_iff threeCenters (fun _ k => k) [] 0).2
      (fun _ => 10) Category.inside (by simp [threeCenters])).1,
   ((make_labelled_sets_error_iff threeCenters (fun _ k => k) [] 0).2
      (fun _ => 10) Category.inside (by simp [threeCenters])).2 (0, 1, 0) (by decide)⟩
